import Mathlib

/-!
# update-check: a shallow embedding of `main.go`

The program reads `package.json`, asks the npm registry for the latest version
of every declared dependency, and shows the comparison in a terminal table.

The embedding threads an explicit `World` through the effectful functions:
what was written to standard output and standard error, and which registry
lookups were issued. Go maps are lists of key/value pairs in the order the
`range` loop visits them. Go errors are their message strings.
-/

namespace UpdateCheck

/-! ## The Go library functions the program calls -/

namespace strings

/-- `strings.HasPrefix(s, pre)`: `s` begins with `pre`. -/
def HasPrefix (s pre : String) : Bool :=
  pre.data.isPrefixOf s.data

/-- `strings.TrimPrefix(s, pre)`: `s` without the leading `pre`; `s` itself
when it does not begin with `pre`. -/
def TrimPrefix (s pre : String) : String :=
  if HasPrefix s pre then String.mk (s.data.drop pre.data.length) else s

end strings

/-- The observable effects of a run: every write to standard output and to
standard error, and every package name handed to the registry lookup, each in
the order it happened. -/
structure World where
  stdout : List String
  stderr : List String
  lookups : List String
deriving DecidableEq, Repr

/-- The world before the program has done anything. -/
def World.start : World := ⟨[], [], []⟩

namespace fmt

/-- `fmt.Printf` and `fmt.Println`, after formatting: one write of `text` to
standard output. -/
def Print (w : World) (text : String) : World :=
  { w with stdout := w.stdout ++ [text] }

end fmt

/-! ## Data model -/

/-- `PackageJSON`: the two maps of the manifest, each as the list of
(name, declared version) pairs in the order `range` yields them. -/
structure PackageJSON where
  Dependencies : List (String × String)
  DevDependencies : List (String × String)
deriving DecidableEq, Repr

/-- `Dependency`: one comparison record. -/
structure Dependency where
  Name : String
  CurrentVersion : String
  LatestVersion : String
  IsDev : Bool
deriving DecidableEq, Repr

/-- The registry lookup `getLatestVersion` seen from its callers: a package
name gives the latest version or an error message. -/
abbrev Lookup := String → Except String String

/-! ## The dependency resolver -/

/-- `processDependency(name, version, isDev)`: one registry lookup, then the
record with the caret stripped from the declared version. -/
def processDependency (lookup : Lookup) (name version : String) (isDev : Bool)
    (w : World) : Except String Dependency × World :=
  let w1 : World := { w with lookups := w.lookups ++ [name] }
  match lookup name with
  | .error err => (.error err, w1)
  | .ok latestVersion =>
    let currentVersion := strings.TrimPrefix version "^"
    (.ok { Name := name
           CurrentVersion := currentVersion
           LatestVersion := latestVersion
           IsDev := isDev }, w1)

/-- The text of the line a failed entry prints: `"Erro ao processar " ++ kind
++ " %s: %v\n"` with the package name and the error. -/
def errorLine (kind dep err : String) : String :=
  "Erro ao processar " ++ kind ++ " " ++ dep ++ ": " ++ err ++ "\n"

/-- One `for dep, version := range entries` loop of `getDependencies`: each
entry is processed; a failure prints its line and continues with the next
entry, a success appends the record. -/
def rangeEntries (lookup : Lookup) (isDev : Bool) (kind : String) :
    List (String × String) → List Dependency → World → List Dependency × World
  | [], dependencies, w => (dependencies, w)
  | (dep, version) :: rest, dependencies, w =>
    match processDependency lookup dep version isDev w with
    | (.error err, w1) =>
      rangeEntries lookup isDev kind rest dependencies (fmt.Print w1 (errorLine kind dep err))
    | (.ok dependency, w1) =>
      rangeEntries lookup isDev kind rest (dependencies ++ [dependency]) w1

/-- The environment of `getDependencies`: the result of
`os.ReadFile("package.json")`, `json.Unmarshal` into a `PackageJSON`, and the
registry lookup. -/
structure Env where
  ReadFile : Except String String
  Unmarshal : String → Except String PackageJSON
  lookup : Lookup

/-- `getDependencies()`: read and parse the manifest, then the production
loop followed by the dev loop. An error result carries no record list. -/
def getDependencies (env : Env) (w : World) : Except String (List Dependency) × World :=
  match env.ReadFile with
  | .error err => (.error ("erro ao ler o arquivo package.json: " ++ err), w)
  | .ok file =>
    match env.Unmarshal file with
    | .error err => (.error ("erro ao analisar o JSON: " ++ err), w)
    | .ok pkg =>
      let dependencies : List Dependency := []
      let (dependencies, w) :=
        rangeEntries env.lookup false "dependência" pkg.Dependencies dependencies w
      let (dependencies, w) :=
        rangeEntries env.lookup true "devDependency" pkg.DevDependencies dependencies w
      (.ok dependencies, w)

/-! ## The registry client -/

/-- A JSON document. Numbers keep their literal text. -/
inductive JSON where
  | null
  | bool (b : Bool)
  | num (literal : String)
  | str (s : String)
  | arr (items : List JSON)
  | obj (members : List (String × JSON))

namespace JSON

/-- The word `encoding/json` uses for a value's kind in its type errors. -/
def kind : JSON → String
  | null => "null"
  | bool _ => "bool"
  | num _ => "number"
  | str _ => "string"
  | arr _ => "array"
  | obj _ => "object"

end JSON

/-- The anonymous struct of `NPMPackageInfo.DistTags`. -/
structure DistTags where
  Latest : String
deriving DecidableEq, Repr

/-- `NPMPackageInfo`: the part of the registry response the program reads. -/
structure NPMPackageInfo where
  DistTags : DistTags
deriving DecidableEq, Repr

namespace json

/-- The runes that Unicode simple case folding identifies with the rune `c`
of a field name: `encoding/json` accepts a key that equals the field name
under that folding. Only the runes of lower-case ASCII names are covered:
a letter folds with its capital, `s` also with the long s (U+017F) and `k`
also with the Kelvin sign (U+212A). -/
def foldClass (c : Char) : List Char :=
  if c = 's' then ['s', 'S', 'ſ']
  else if c = 'k' then ['k', 'K', 'K']
  else if c.isLower then [c, c.toUpper]
  else [c]

/-- An object key selects the struct field tagged `name`: exact match or
match under case folding. -/
def matchesField (key name : String) : Bool :=
  decide (key.data.length = name.data.length) &&
    (key.data.zip name.data).all (fun kn => (foldClass kn.2).contains kn.1)

/-- The decoder's `saveError`: the earliest error is the one reported. -/
def saveError (saved : Option String) (err : String) : Option String :=
  match saved with
  | some first => some first
  | none => some err

/-- The `UnmarshalTypeError` message for a value that does not fit `target`,
which is `Go value of type T` at the top and `Go struct field F of type T`
inside the struct. -/
def typeError (v : JSON) (target : String) : String :=
  "json: cannot unmarshal " ++ v.kind ++ " into " ++ target

/-- Decoding a value into the `string` field `Latest`: a string is stored,
`null` leaves the field as it is, anything else is a type error and the
field keeps its value. -/
def decodeLatest (v : JSON) (cur : String) (saved : Option String) : String × Option String :=
  match v with
  | .str s => (s, saved)
  | .null => (cur, saved)
  | other =>
    (cur, saveError saved (typeError other
      "Go struct field NPMPackageInfo.dist-tags.latest of type string"))

/-- Decoding a value into the struct `DistTags`: the members of an object
are visited in document order, those matching `latest` are decoded into the
field and the others skipped; `null` has no effect; anything else is a type
error. -/
def decodeDistTags (v : JSON) (cur : DistTags) (saved : Option String) :
    DistTags × Option String :=
  match v with
  | .obj members =>
    members.foldl
      (fun (acc : DistTags × Option String) (kv : String × JSON) =>
        if matchesField kv.1 "latest" then
          let r := decodeLatest kv.2 acc.1.Latest acc.2
          ({ Latest := r.1 }, r.2)
        else acc)
      (cur, saved)
  | .null => (cur, saved)
  | other =>
    (cur, saveError saved (typeError other
      "Go struct field NPMPackageInfo.dist-tags of type struct \x7b Latest string \"json:\\\"latest\\\"\" \x7d"))

/-- Decoding a value into `NPMPackageInfo`, in the same way, for the field
tagged `dist-tags`. -/
def decodeNPMPackageInfo (v : JSON) (cur : NPMPackageInfo) (saved : Option String) :
    NPMPackageInfo × Option String :=
  match v with
  | .obj members =>
    members.foldl
      (fun (acc : NPMPackageInfo × Option String) (kv : String × JSON) =>
        if matchesField kv.1 "dist-tags" then
          let r := decodeDistTags kv.2 acc.1.DistTags acc.2
          ({ DistTags := r.1 }, r.2)
        else acc)
      (cur, saved)
  | .null => (cur, saved)
  | other => (cur, saveError saved (typeError other "Go value of type main.NPMPackageInfo"))

/-- `json.Unmarshal(body, &npmInfo)` on a body that is the well-formed
document `v`, with `npmInfo` starting at its zero value: the decoded struct,
or the saved type error. -/
def Unmarshal (v : JSON) : Except String NPMPackageInfo :=
  match decodeNPMPackageInfo v { DistTags := { Latest := "" } } none with
  | (_, some err) => .error err
  | (npmInfo, none) => .ok npmInfo

end json

/-- What one GET of a registry URL leads to. -/
inductive Fetch where
  /-- `http.Get` fails. -/
  | transportError (err : String)
  /-- `io.ReadAll(resp.Body)` fails. -/
  | readError (err : String)
  /-- The body is not well-formed JSON; `err` is the syntax error of `json.Unmarshal`. -/
  | malformed (err : String)
  /-- The body is the well-formed JSON document `v`. -/
  | body (v : JSON)

/-- The network: what each URL leads to. -/
abbrev Registry := String → Fetch

/-- `getLatestVersion(packageName)`: one GET of the registry URL of the
package, then the `latest` tag of the decoded response. -/
def getLatestVersion (registry : Registry) (packageName : String) : Except String String :=
  let url := "https://registry.npmjs.org/" ++ packageName
  match registry url with
  | .transportError err => .error err
  | .readError err => .error err
  | .malformed err => .error err
  | .body v =>
    match json.Unmarshal v with
    | .error err => .error err
    | .ok npmInfo => .ok npmInfo.DistTags.Latest

/-! ## The terminal session -/

namespace tea

/-- `tea.KeyMsg`, identified by what its `String()` method returns. -/
structure KeyMsg where
  String : String
deriving DecidableEq, Repr

/-- `tea.Msg`: a key press, or any other message of the runtime. -/
inductive Msg where
  | Key (k : KeyMsg)
  | Other (tag : Nat)
deriving DecidableEq, Repr

/-- `tea.Cmd`: `nil`, `tea.Quit`, or a command of a widget. -/
inductive Cmd where
  | nil
  | Quit
  | widget (tag : Nat)
deriving DecidableEq, Repr

end tea

namespace lipgloss

/-- A `lipgloss.Style`: the setters applied so far, oldest first. -/
structure Style where
  settings : List (String × String)
deriving DecidableEq, Repr

/-- One setter call on a style. -/
def Style.set (s : Style) (name value : String) : Style :=
  { settings := s.settings ++ [(name, value)] }

end lipgloss

namespace table

/-- `table.Column`. -/
structure Column where
  Title : String
  Width : Int
deriving DecidableEq, Repr

/-- `table.Row`. -/
abbrev Row := List String

/-- `table.Styles`. -/
structure Styles where
  Header : lipgloss.Style
  Cell : lipgloss.Style
  Selected : lipgloss.Style
deriving DecidableEq, Repr

/-- `table.DefaultStyles()`. -/
def DefaultStyles : Styles :=
  { Header := ⟨[("Bold", "true"), ("Padding", "0 1")]⟩
    Cell := ⟨[("Padding", "0 1")]⟩
    Selected := ⟨[("Bold", "true"), ("Foreground", "212")]⟩ }

/-- `table.Model`, as far as the options of `table.New` set it: `height` is
the height of the viewport that shows the rows, what `Height()` returns. -/
structure Model where
  cols : List Column
  rows : List Row
  cursor : Int
  focus : Bool
  height : Int
  styles : Styles
deriving DecidableEq, Repr

/-- `table.Option`. -/
abbrev Option := Model → Model

/-- `table.WithColumns`. -/
def WithColumns (cols : List Column) : Option := fun m => { m with cols := cols }

/-- `table.WithRows`. -/
def WithRows (rows : List Row) : Option := fun m => { m with rows := rows }

/-- `table.WithFocused`. -/
def WithFocused (f : Bool) : Option := fun m => { m with focus := f }

/-- The number of lines of the rendered header, `lipgloss.Height(m.headersView())`:
the line of titles, and the line of the bottom border when the header style
has one. -/
def Model.headerHeight (m : Model) : Int :=
  if m.styles.Header.settings.contains ("BorderStyle", "NormalBorder") &&
      m.styles.Header.settings.contains ("BorderBottom", "true") then 2
  else 1

/-- `table.WithHeight(h)`, as bubbles has it from v0.19 on: `h` is the height
of the whole table, and the viewport of the rows gets what the header leaves
of it. -/
def WithHeight (h : Int) : Option := fun m => { m with height := h - m.headerHeight }

/-- `table.New(opts...)`: the default model with the options applied in order. -/
def New (opts : List Option) : Model :=
  opts.foldl (fun m opt => opt m)
    { cols := [], rows := [], cursor := 0, focus := false, height := 20, styles := DefaultStyles }

/-- `(*table.Model).SetStyles`: the styles are replaced, the height stays. -/
def Model.SetStyles (m : Model) (s : Styles) : Model := { m with styles := s }

/-- A stand-in for the widget's `Update`, to run examples: a focused table
moves its cursor one row on `down` and `up`, within the rows, and never
issues a command. The theorems hold for every update function. -/
def Update (m : Model) (msg : tea.Msg) : Model × tea.Cmd :=
  match msg with
  | .Key k =>
    if m.focus && k.String == "down" then
      ({ m with cursor := max 0 (min (m.cursor + 1) ((m.rows.length : Int) - 1)) }, .nil)
    else if m.focus && k.String == "up" then
      ({ m with cursor := max 0 (min (m.cursor - 1) ((m.rows.length : Int) - 1)) }, .nil)
    else (m, .nil)
  | .Other _ => (m, .nil)

end table

/-- The `Update` method of the table widget, which the program only calls. -/
abbrev TableUpdate := table.Model → tea.Msg → table.Model × tea.Cmd

/-- `model`. -/
structure model where
  table : table.Model
deriving DecidableEq, Repr

/-- `model.Update(msg)`: a key message quits on `q` and `ctrl+c` and
otherwise leaves the `switch` with `cmd` still nil; every other message goes
to the table. -/
def model.Update (tableUpdate : TableUpdate) (m : model) (msg : tea.Msg) : model × tea.Cmd :=
  let cmd : tea.Cmd := .nil
  match msg with
  | .Key k =>
    if k.String = "q" ∨ k.String = "ctrl+c" then (m, .Quit)
    else (m, cmd)
  | other =>
    let r := tableUpdate m.table other
    ({ m with table := r.1 }, r.2)

/-! ## `main` -/

/-- The four columns of the table. -/
def columns : List table.Column :=
  [ { Title := "Name", Width := 30 }
  , { Title := "Current Version", Width := 15 }
  , { Title := "Updated Version", Width := 15 }
  , { Title := "Type", Width := 10 } ]

/-- The body of the loop over the records: the row of one record. -/
def rowOf (dep : Dependency) : table.Row :=
  let depType := if dep.IsDev then "Dev" else "Produção"
  [dep.Name, dep.CurrentVersion, dep.LatestVersion, depType]

/-- The loop `for _, dep := range dependencies` of `main`, appending one row
per record. -/
def buildRows (dependencies : List Dependency) : List table.Row :=
  dependencies.foldl (fun rows dep => rows ++ [rowOf dep]) []

/-- The header style `main` sets. -/
def headerStyle (s : table.Styles) : lipgloss.Style :=
  (((((s.Header.set "BorderStyle" "NormalBorder").set "BorderForeground" "240").set
    "BorderBottom" "true").set "Bold" "true").set "Foreground" "39").set "Background" "236"

/-- The table `main` builds from the records. -/
def buildTable (dependencies : List Dependency) : table.Model :=
  let rows := buildRows dependencies
  let t := table.New
    [ table.WithColumns columns
    , table.WithRows rows
    , table.WithFocused true
    , table.WithHeight (dependencies.length : Int) ]
  let s := table.DefaultStyles
  let s := { s with Header := headerStyle s }
  t.SetStyles s

/-- What a run of `main` comes to: the effects, the model handed to
`tea.NewProgram(m).Run()` when the session was started, and the exit code. -/
structure Outcome where
  world : World
  session : Option model
  exitCode : Nat
deriving DecidableEq, Repr

/-- `main()`. `run` is `tea.NewProgram(m).Run()`: the error it ends with, if any. -/
def main (env : Env) (run : model → Option String) (w : World) : Outcome :=
  match getDependencies env w with
  | (.error err, w) =>
    { world := fmt.Print w ("Erro: " ++ err ++ "\n"), session := none, exitCode := 0 }
  | (.ok dependencies, w) =>
    let m : model := ⟨buildTable dependencies⟩
    match run m with
    | some err =>
      { world := fmt.Print w ("Erro ao executar programa: " ++ err ++ "\n")
        session := some m, exitCode := 1 }
    | none => { world := w, session := some m, exitCode := 0 }

/-! ## The registry response -/

namespace json

/-- A value fits the `string` field `Latest`: a string or `null`. -/
def fitsLatest : JSON → Bool
  | .str _ => true
  | .null => true
  | _ => false

/-- A value fits the struct `DistTags`: `null`, or an object whose members
matching `latest` fit that field. -/
def fitsDistTags : JSON → Bool
  | .obj members => members.all (fun kv => !matchesField kv.1 "latest" || fitsLatest kv.2)
  | .null => true
  | _ => false

/-- A value fits `NPMPackageInfo`: `null`, or an object whose members matching
`dist-tags` fit that field. -/
def fitsNPMPackageInfo : JSON → Bool
  | .obj members => members.all (fun kv => !matchesField kv.1 "dist-tags" || fitsDistTags kv.2)
  | .null => true
  | _ => false

/-- The string a member stores into `Latest`, if it stores one. -/
def latestOfMember (kv : String × JSON) : Option String :=
  if matchesField kv.1 "latest" then
    match kv.2 with
    | .str s => some s
    | _ => none
  else none

/-- The strings found at `latest` inside a `dist-tags` value, in document order. -/
def latestIn : JSON → List String
  | .obj members => members.filterMap latestOfMember
  | _ => []

/-- The strings found at `dist-tags.latest` in a response, in document order. -/
def latestTags : JSON → List String
  | .obj members =>
    members.flatMap (fun kv => if matchesField kv.1 "dist-tags" then latestIn kv.2 else [])
  | _ => []

/-- The last element of a list, or `d` when it is empty. -/
def lastOr (l : List String) (d : String) : String :=
  l.getLast?.getD d

end json

/-- The URL `getLatestVersion` requests for a package. -/
def registryURL (packageName : String) : String :=
  "https://registry.npmjs.org/" ++ packageName

/-! ## Vocabulary of the statements -/

/-- The record an entry leads to: none when its lookup fails. -/
def recordOf (lookup : Lookup) (isDev : Bool) (e : String × String) : Option Dependency :=
  match lookup e.1 with
  | .ok latestVersion =>
    some { Name := e.1
           CurrentVersion := strings.TrimPrefix e.2 "^"
           LatestVersion := latestVersion
           IsDev := isDev }
  | .error _ => none

/-- The line an entry leads to: none when its lookup succeeds. -/
def lineOf (lookup : Lookup) (kind : String) (e : String × String) : Option String :=
  match lookup e.1 with
  | .ok _ => none
  | .error err => some (errorLine kind e.1 err)

/-- The lookup of an entry succeeds. -/
def resolves (lookup : Lookup) (e : String × String) : Bool :=
  (lookup e.1).isOk

/-- All entries of a manifest: production first, then dev. -/
def PackageJSON.entries (pkg : PackageJSON) : List (String × String) :=
  pkg.Dependencies ++ pkg.DevDependencies

/-- The error lines of a manifest, production first, then dev. -/
def failureLines (lookup : Lookup) (pkg : PackageJSON) : List String :=
  pkg.Dependencies.filterMap (lineOf lookup "dependência") ++
    pkg.DevDependencies.filterMap (lineOf lookup "devDependency")

/-- The records of a manifest, production first, then dev. -/
def recordsOf (lookup : Lookup) (pkg : PackageJSON) : List Dependency :=
  pkg.Dependencies.filterMap (recordOf lookup false) ++
    pkg.DevDependencies.filterMap (recordOf lookup true)

/-! ## Sample inputs -/

/-- A registry lookup that fails for `left-pad` and answers `9.9.9` otherwise. -/
def sampleLookup : Lookup := fun name =>
  if name = "left-pad" then .error "timeout" else .ok "9.9.9"

/-- A registry lookup that always answers `9.9.9`. -/
def steadyLookup : Lookup := fun _ => .ok "9.9.9"

/-- A manifest with two production entries and one dev entry. -/
def samplePkg : PackageJSON :=
  { Dependencies := [("react", "^18.2.0"), ("left-pad", "1.3.0")]
    DevDependencies := [("jest", "^29.0.0")] }

/-- An environment in which the manifest reads and parses as `samplePkg`. -/
def sampleEnv (lookup : Lookup) : Env :=
  { ReadFile := .ok "..."
    Unmarshal := fun _ => .ok samplePkg
    lookup := lookup }

/-- An environment whose manifest cannot be read. -/
def unreadableEnv : Env :=
  { ReadFile := .error "open package.json: no such file or directory"
    Unmarshal := fun _ => .ok samplePkg
    lookup := steadyLookup }

/-- An environment whose manifest is not JSON. -/
def unparsableEnv : Env :=
  { ReadFile := .ok "not json"
    Unmarshal := fun _ => .error "invalid character in literal"
    lookup := steadyLookup }

/-- A focused table of two rows with the cursor on the first. -/
def sampleModel : model :=
  ⟨buildTable [⟨"react", "18.2.0", "9.9.9", false⟩, ⟨"jest", "29.0.0", "9.9.9", true⟩]⟩

/-- A registry: `react` has a tagged response, `empty` answers `{}`, `untagged`
has tags but no `latest`, `list` answers an array, `offline` cannot be
reached, and every other body is malformed. -/
def sampleRegistry : Registry := fun url =>
  if url = "https://registry.npmjs.org/react" then
    .body (.obj [("name", .str "react"),
      ("dist-tags", .obj [("latest", .str "18.2.0"), ("next", .str "19.0.0")])])
  else if url = "https://registry.npmjs.org/empty" then .body (.obj [])
  else if url = "https://registry.npmjs.org/untagged" then
    .body (.obj [("dist-tags", .obj [("next", .str "1.0.0")])])
  else if url = "https://registry.npmjs.org/list" then .body (.arr [.str "react"])
  else if url = "https://registry.npmjs.org/offline" then
    .transportError "dial tcp: i/o timeout"
  else .malformed "unexpected end of JSON input"

/-! ## The loops of `getDependencies` -/

theorem rangeEntries_eq (lookup : Lookup) (isDev : Bool) (kind : String)
    (entries : List (String × String)) (dependencies : List Dependency) (w : World) :
    rangeEntries lookup isDev kind entries dependencies w =
      (dependencies ++ entries.filterMap (recordOf lookup isDev),
       { stdout := w.stdout ++ entries.filterMap (lineOf lookup kind)
         stderr := w.stderr
         lookups := w.lookups ++ entries.map Prod.fst }) := by
  induction entries generalizing dependencies w with
  | nil => simp [rangeEntries]
  | cons e rest ih =>
    obtain ⟨dep, version⟩ := e
    cases h : lookup dep with
    | error err =>
      simp [rangeEntries, processDependency, h, ih, recordOf, lineOf, fmt.Print]
    | ok latestVersion =>
      simp [rangeEntries, processDependency, h, ih, recordOf, lineOf]

theorem getDependencies_eq (env : Env) (w : World) (file : String) (pkg : PackageJSON)
    (hread : env.ReadFile = .ok file) (hparse : env.Unmarshal file = .ok pkg) :
    getDependencies env w =
      (.ok (recordsOf env.lookup pkg),
       { stdout := w.stdout ++ failureLines env.lookup pkg
         stderr := w.stderr
         lookups := w.lookups ++ pkg.entries.map Prod.fst }) := by
  simp [getDependencies, hread, hparse, rangeEntries_eq, recordsOf, failureLines,
    PackageJSON.entries]

theorem recordOf_isSome (lookup : Lookup) (isDev : Bool) (e : String × String) :
    (recordOf lookup isDev e).isSome = resolves lookup e := by
  unfold recordOf resolves
  cases lookup e.1 <;> rfl

theorem length_filterMap_recordOf (lookup : Lookup) (isDev : Bool)
    (entries : List (String × String)) :
    (entries.filterMap (recordOf lookup isDev)).length =
      (entries.filter (resolves lookup)).length := by
  induction entries with
  | nil => rfl
  | cons e rest ih =>
    have h := recordOf_isSome lookup isDev e
    cases hr : recordOf lookup isDev e with
    | none =>
      have : resolves lookup e = false := by rw [← h, hr]; rfl
      simp [List.filterMap_cons, hr, this, ih]
    | some d =>
      have : resolves lookup e = true := by rw [← h, hr]; rfl
      simp [List.filterMap_cons, hr, this, ih]

theorem length_recordsOf (lookup : Lookup) (pkg : PackageJSON) :
    (recordsOf lookup pkg).length = (pkg.entries.filter (resolves lookup)).length := by
  simp [recordsOf, PackageJSON.entries, length_filterMap_recordOf]

theorem filterMap_recordOf_of_ok (lookup : Lookup) (latest : String → String) (isDev : Bool)
    (hlookup : ∀ name, lookup name = .ok (latest name)) (entries : List (String × String)) :
    entries.filterMap (recordOf lookup isDev) =
      entries.map (fun e =>
        { Name := e.1, CurrentVersion := strings.TrimPrefix e.2 "^"
          LatestVersion := latest e.1, IsDev := isDev }) := by
  induction entries with
  | nil => rfl
  | cons e rest ih => simp [List.filterMap_cons, recordOf, hlookup, ih]

theorem map_key_filterMap_recordOf (lookup : Lookup) (isDev : Bool)
    (entries : List (String × String)) :
    (entries.filterMap (recordOf lookup isDev)).map (fun d => (d.Name, d.IsDev)) =
      (entries.filter (resolves lookup)).map (fun e => (e.1, isDev)) := by
  induction entries with
  | nil => rfl
  | cons e rest ih =>
    cases h : lookup e.1 with
    | error err => simp [List.filterMap_cons, recordOf, resolves, h, ih, Except.isOk, Except.toBool]
    | ok v => simp [List.filterMap_cons, recordOf, resolves, h, ih, Except.isOk, Except.toBool]

theorem isDev_of_mem_filterMap_recordOf (lookup : Lookup) (isDev : Bool)
    (entries : List (String × String)) (d : Dependency)
    (hd : d ∈ entries.filterMap (recordOf lookup isDev)) : d.IsDev = isDev := by
  rw [List.mem_filterMap] at hd
  obtain ⟨e, _, he⟩ := hd
  unfold recordOf at he
  cases h : lookup e.1 with
  | error err => simp [h] at he
  | ok v =>
    simp [h] at he
    rw [← he]

theorem length_filter_resolves (lookup : Lookup) (entries : List (String × String)) :
    (entries.filter (resolves lookup)).length +
      (entries.filter (fun e => !resolves lookup e)).length = entries.length := by
  induction entries with
  | nil => rfl
  | cons e rest ih =>
    cases h : resolves lookup e <;> simp [List.filter_cons, h] <;> omega

theorem forall₂_lineOf (lookup : Lookup) (kind : String) (entries : List (String × String)) :
    List.Forall₂ (fun e line => ∃ err, lookup e.1 = .error err ∧ line = errorLine kind e.1 err)
      (entries.filter (fun e => !resolves lookup e)) (entries.filterMap (lineOf lookup kind)) := by
  induction entries with
  | nil => exact List.Forall₂.nil
  | cons e rest ih =>
    cases h : lookup e.1 with
    | error err =>
      simp only [List.filter_cons, List.filterMap_cons, lineOf, resolves, h, Except.isOk,
        Except.toBool, Bool.not_false, if_true]
      exact List.Forall₂.cons ⟨err, h, rfl⟩ ih
    | ok v =>
      simp only [List.filter_cons, List.filterMap_cons, lineOf, resolves, h, Except.isOk,
        Except.toBool, Bool.not_true]
      exact ih

/-! ## The claims about the dependency resolver -/

/-- C1: when the manifest reads and parses and the lookup answers for every
name, `getDependencies` returns without error exactly one record per entry,
P + D in all: the production entries in order tagged `IsDev = false`, then
the dev entries in order tagged `IsDev = true`, each with its entry's name and
the version the lookup returned for it. -/
theorem getDependencies_all_resolved (env : Env) (w : World) (file : String)
    (pkg : PackageJSON) (latest : String → String)
    (hread : env.ReadFile = .ok file) (hparse : env.Unmarshal file = .ok pkg)
    (hlookup : ∀ name, env.lookup name = .ok (latest name)) :
    ∃ deps, (getDependencies env w).1 = .ok deps ∧
      deps.length = pkg.Dependencies.length + pkg.DevDependencies.length ∧
      deps =
        pkg.Dependencies.map (fun e =>
          { Name := e.1, CurrentVersion := strings.TrimPrefix e.2 "^"
            LatestVersion := latest e.1, IsDev := false }) ++
        pkg.DevDependencies.map (fun e =>
          { Name := e.1, CurrentVersion := strings.TrimPrefix e.2 "^"
            LatestVersion := latest e.1, IsDev := true }) := by
  refine ⟨_, by rw [getDependencies_eq env w file pkg hread hparse], ?_, ?_⟩
  · simp [recordsOf, filterMap_recordOf_of_ok env.lookup latest _ hlookup]
  · simp [recordsOf, filterMap_recordOf_of_ok env.lookup latest _ hlookup]

theorem getDependencies_all_resolved_witness :
    ∃ deps, (getDependencies (sampleEnv steadyLookup) World.start).1 = .ok deps ∧
      deps.length = 2 + 1 ∧
      deps =
        [ ⟨"react", "18.2.0", "9.9.9", false⟩, ⟨"left-pad", "1.3.0", "9.9.9", false⟩
        , ⟨"jest", "29.0.0", "9.9.9", true⟩ ] := by
  obtain ⟨deps, h1, h2, h3⟩ := getDependencies_all_resolved (sampleEnv steadyLookup)
    World.start "..." samplePkg (fun _ => "9.9.9") rfl rfl (fun _ => rfl)
  refine ⟨deps, h1, h2, ?_⟩
  rw [h3]
  decide

/-- C2: for every manifest that reads and parses and every lookup function,
`getDependencies` returns no error and as many records as there are entries
whose lookup succeeds; with exactly one failing entry that is N - 1; and the
batch is never aborted: every entry is looked up, and every entry whose lookup
succeeds has its record in the result, whatever failed before it. -/
theorem getDependencies_skips_failures (env : Env) (w : World) (file : String)
    (pkg : PackageJSON)
    (hread : env.ReadFile = .ok file) (hparse : env.Unmarshal file = .ok pkg) :
    ∃ deps, (getDependencies env w).1 = .ok deps ∧
      deps.length = (pkg.entries.filter (resolves env.lookup)).length ∧
      ((pkg.entries.filter (fun e => !resolves env.lookup e)).length = 1 →
        deps.length = pkg.entries.length - 1) ∧
      (getDependencies env w).2.lookups = w.lookups ++ pkg.entries.map Prod.fst ∧
      (∀ e ∈ pkg.Dependencies, ∀ v, env.lookup e.1 = .ok v →
        { Name := e.1, CurrentVersion := strings.TrimPrefix e.2 "^"
          LatestVersion := v, IsDev := false } ∈ deps) ∧
      (∀ e ∈ pkg.DevDependencies, ∀ v, env.lookup e.1 = .ok v →
        { Name := e.1, CurrentVersion := strings.TrimPrefix e.2 "^"
          LatestVersion := v, IsDev := true } ∈ deps) := by
  rw [getDependencies_eq env w file pkg hread hparse]
  refine ⟨_, rfl, length_recordsOf _ _, ?_, rfl, ?_, ?_⟩
  · intro h1
    have h := length_filter_resolves env.lookup pkg.entries
    rw [length_recordsOf]
    omega
  · intro e he v hv
    refine List.mem_append_left _ (List.mem_filterMap.mpr ⟨e, he, ?_⟩)
    simp [recordOf, hv]
  · intro e he v hv
    refine List.mem_append_right _ (List.mem_filterMap.mpr ⟨e, he, ?_⟩)
    simp [recordOf, hv]

theorem getDependencies_skips_failures_witness :
    ∃ deps, (getDependencies (sampleEnv sampleLookup) World.start).1 = .ok deps ∧
      deps.length = 2 ∧
      (getDependencies (sampleEnv sampleLookup) World.start).2.lookups =
        ["react", "left-pad", "jest"] ∧
      (⟨"jest", "29.0.0", "9.9.9", true⟩ : Dependency) ∈ deps := by
  obtain ⟨deps, h1, h2, _, h4, _, h6⟩ := getDependencies_skips_failures
    (sampleEnv sampleLookup) World.start "..." samplePkg rfl rfl
  refine ⟨deps, h1, ?_, ?_, ?_⟩
  · rw [h2]; decide
  · rw [h4]; decide
  · exact h6 ("jest", "^29.0.0") (by decide) "9.9.9" (by simp [sampleEnv, sampleLookup])

/-- C3: when the lookup succeeds, `processDependency` given the declared
version `"^" ++ v` returns a record whose `CurrentVersion` is exactly `v`
(one caret is stripped, a second one stays), and given a declared version
that does not begin with the caret returns it unchanged. -/
theorem processDependency_currentVersion (lookup : Lookup) (name latest : String)
    (isDev : Bool) (w : World) (hlookup : lookup name = .ok latest) :
    (∀ v : String, (processDependency lookup name ("^" ++ v) isDev w).1 =
        .ok { Name := name, CurrentVersion := v, LatestVersion := latest, IsDev := isDev }) ∧
    (∀ version : String, strings.HasPrefix version "^" = false →
      (processDependency lookup name version isDev w).1 =
        .ok { Name := name, CurrentVersion := version, LatestVersion := latest
              IsDev := isDev }) := by
  constructor
  · intro v
    have h : strings.TrimPrefix ("^" ++ v) "^" = v := by
      simp [strings.TrimPrefix, strings.HasPrefix, String.data_append]
    simp [processDependency, hlookup, h]
  · intro version hv
    simp [processDependency, hlookup, strings.TrimPrefix, hv]

theorem processDependency_currentVersion_witness :
    (processDependency steadyLookup "react" "^1.2.3" false World.start).1 =
        .ok ⟨"react", "1.2.3", "9.9.9", false⟩ ∧
    (processDependency steadyLookup "react" "^^1.0.0" false World.start).1 =
        .ok ⟨"react", "^1.0.0", "9.9.9", false⟩ ∧
    (processDependency steadyLookup "react" "~1.2.3" false World.start).1 =
        .ok ⟨"react", "~1.2.3", "9.9.9", false⟩ :=
  ⟨(processDependency_currentVersion steadyLookup "react" "9.9.9" false World.start rfl).1
      "1.2.3",
   (processDependency_currentVersion steadyLookup "react" "9.9.9" false World.start rfl).1
      "^1.0.0",
   (processDependency_currentVersion steadyLookup "react" "9.9.9" false World.start rfl).2
      "~1.2.3" (by decide)⟩

/-- C5, as the code has it: `getDependencies` writes exactly one error line
per entry whose lookup fails, in entry order, each made of the kind of the
entry, the name of the failing package and the error; the lines go to
standard output, and standard error receives nothing; entries whose lookup
succeeds write no line. -/
theorem getDependencies_error_lines (env : Env) (w : World) (file : String)
    (pkg : PackageJSON)
    (hread : env.ReadFile = .ok file) (hparse : env.Unmarshal file = .ok pkg) :
    ∃ lines, (getDependencies env w).2.stdout = w.stdout ++ lines ∧
      (getDependencies env w).2.stderr = w.stderr ∧
      lines.length = (pkg.entries.filter (fun e => !resolves env.lookup e)).length ∧
      List.Forall₂
        (fun e line => ∃ kind err, env.lookup e.1 = .error err ∧
          line = "Erro ao processar " ++ kind ++ " " ++ e.1 ++ ": " ++ err ++ "\n")
        (pkg.entries.filter (fun e => !resolves env.lookup e)) lines := by
  rw [getDependencies_eq env w file pkg hread hparse]
  have hall : List.Forall₂
      (fun e line => ∃ kind err, env.lookup e.1 = .error err ∧
        line = "Erro ao processar " ++ kind ++ " " ++ e.1 ++ ": " ++ err ++ "\n")
      (pkg.entries.filter (fun e => !resolves env.lookup e))
      (failureLines env.lookup pkg) := by
    unfold failureLines PackageJSON.entries
    rw [List.filter_append]
    refine List.rel_append ?_ ?_
    · exact (forall₂_lineOf env.lookup "dependência" pkg.Dependencies).imp
        (fun _ _ ⟨err, h1, h2⟩ => ⟨_, err, h1, h2⟩)
    · exact (forall₂_lineOf env.lookup "devDependency" pkg.DevDependencies).imp
        (fun _ _ ⟨err, h1, h2⟩ => ⟨_, err, h1, h2⟩)
  exact ⟨_, rfl, rfl, hall.length_eq.symm, hall⟩

theorem getDependencies_error_lines_witness :
    ∃ lines, (getDependencies (sampleEnv sampleLookup) World.start).2.stdout = [] ++ lines ∧
      (getDependencies (sampleEnv sampleLookup) World.start).2.stderr = [] ∧
      lines.length = 1 := by
  obtain ⟨lines, h1, h2, h3, _⟩ := getDependencies_error_lines
    (sampleEnv sampleLookup) World.start "..." samplePkg rfl rfl
  exact ⟨lines, h1, h2, by rw [h3]; decide⟩

/-- C5, as the claim has it, fails: with one failing lookup the error line is
on standard output and standard error is empty. -/
theorem getDependencies_error_lines_not_on_stderr :
    (samplePkg.entries.filter (fun e => !resolves sampleLookup e)).length = 1 ∧
    (getDependencies (sampleEnv sampleLookup) World.start).2.stderr = [] ∧
    (getDependencies (sampleEnv sampleLookup) World.start).2.stdout =
      ["Erro ao processar dependência left-pad: timeout\n"] := by
  decide

/-- C7: the (name, IsDev) pairs of the records `getDependencies` returns form
a sublist of the production entries in iteration order followed by the dev
entries in iteration order, and the records split into production records
followed by dev records. -/
theorem getDependencies_sublist (env : Env) (w : World) (file : String)
    (pkg : PackageJSON)
    (hread : env.ReadFile = .ok file) (hparse : env.Unmarshal file = .ok pkg) :
    ∃ deps, (getDependencies env w).1 = .ok deps ∧
      (deps.map (fun d => (d.Name, d.IsDev))).Sublist
        (pkg.Dependencies.map (fun e => (e.1, false)) ++
          pkg.DevDependencies.map (fun e => (e.1, true))) ∧
      ∃ prod dev, deps = prod ++ dev ∧
        (∀ d ∈ prod, d.IsDev = false) ∧ (∀ d ∈ dev, d.IsDev = true) := by
  rw [getDependencies_eq env w file pkg hread hparse]
  refine ⟨_, rfl, ?_, _, _, rfl, ?_, ?_⟩
  · unfold recordsOf
    rw [List.map_append, map_key_filterMap_recordOf, map_key_filterMap_recordOf]
    exact List.Sublist.append ((List.filter_sublist _).map _) ((List.filter_sublist _).map _)
  · exact fun d hd => isDev_of_mem_filterMap_recordOf _ _ _ d hd
  · exact fun d hd => isDev_of_mem_filterMap_recordOf _ _ _ d hd

theorem getDependencies_sublist_witness :
    ∃ deps, (getDependencies (sampleEnv sampleLookup) World.start).1 = .ok deps ∧
      (deps.map (fun d => (d.Name, d.IsDev))).Sublist
        [("react", false), ("left-pad", false), ("jest", true)] := by
  obtain ⟨deps, h1, h2, _⟩ := getDependencies_sublist
    (sampleEnv sampleLookup) World.start "..." samplePkg rfl rfl
  exact ⟨deps, h1, h2⟩

/-- C8: when reading `package.json` fails, or its content does not parse into
the manifest, `getDependencies` returns an error and no record list, issues no
registry lookup and prints nothing; `main` then prints the error message and
returns with exit code 0 without building the table or starting the session. -/
theorem getDependencies_manifest_failure (env : Env) (run : model → Option String)
    (w : World)
    (hfail : (∃ err, env.ReadFile = .error err) ∨
      (∃ file err, env.ReadFile = .ok file ∧ env.Unmarshal file = .error err)) :
    ∃ msg, getDependencies env w = (.error msg, w) ∧
      (getDependencies env w).2.lookups = w.lookups ∧
      main env run w =
        { world := { w with stdout := w.stdout ++ ["Erro: " ++ msg ++ "\n"] }
          session := none
          exitCode := 0 } := by
  rcases hfail with ⟨err, h⟩ | ⟨file, err, h1, h2⟩
  · exact ⟨"erro ao ler o arquivo package.json: " ++ err,
      by simp [getDependencies, h], by simp [getDependencies, h],
      by simp [main, getDependencies, h, fmt.Print]⟩
  · exact ⟨"erro ao analisar o JSON: " ++ err,
      by simp [getDependencies, h1, h2], by simp [getDependencies, h1, h2],
      by simp [main, getDependencies, h1, h2, fmt.Print]⟩

theorem getDependencies_manifest_failure_witness :
    (∃ msg, getDependencies unreadableEnv World.start = (.error msg, World.start) ∧
      (main unreadableEnv (fun _ => none) World.start).session = none ∧
      (main unreadableEnv (fun _ => none) World.start).world.lookups = []) ∧
    (∃ msg, getDependencies unparsableEnv World.start = (.error msg, World.start) ∧
      (main unparsableEnv (fun _ => none) World.start).session = none ∧
      (main unparsableEnv (fun _ => none) World.start).world.lookups = []) := by
  constructor
  · obtain ⟨msg, h1, _, h3⟩ := getDependencies_manifest_failure unreadableEnv
      (fun _ => none) World.start (Or.inl ⟨_, rfl⟩)
    exact ⟨msg, h1, by rw [h3], by rw [h3]; rfl⟩
  · obtain ⟨msg, h1, _, h3⟩ := getDependencies_manifest_failure unparsableEnv
      (fun _ => none) World.start (Or.inr ⟨_, _, rfl, rfl⟩)
    exact ⟨msg, h1, by rw [h3], by rw [h3]; rfl⟩

/-! ## The claims about the terminal session -/

/-- C4, as the code has it: a key message that is not a quit key is not
handed to the table widget; `model.Update` returns the model as it was, table
included, and the nil command, whatever the widget would have done. -/
theorem update_key_not_delegated (tableUpdate : TableUpdate) (m : model) (k : tea.KeyMsg)
    (hk : ¬ (k.String = "q" ∨ k.String = "ctrl+c")) :
    model.Update tableUpdate m (.Key k) = (m, .nil) := by
  simp [model.Update, hk]

theorem update_key_not_delegated_witness :
    model.Update table.Update sampleModel (.Key ⟨"down"⟩) = (sampleModel, .nil) ∧
    (table.Update sampleModel.table (.Key ⟨"down"⟩)).1.cursor = 1 ∧
    (model.Update table.Update sampleModel (.Key ⟨"down"⟩)).1.table.cursor = 0 := by
  have h := update_key_not_delegated table.Update sampleModel ⟨"down"⟩ (by decide)
  refine ⟨h, by decide, ?_⟩
  rw [h]
  decide

/-- C6: for every model and every key message, `model.Update` returns the
quit command if and only if the key's string is `q` or `ctrl+c`, and then
returns the model unchanged; every other key message gives the nil command. -/
theorem update_quit_iff (tableUpdate : TableUpdate) (m : model) (k : tea.KeyMsg) :
    ((model.Update tableUpdate m (.Key k)).2 = .Quit ↔
      (k.String = "q" ∨ k.String = "ctrl+c")) ∧
    ((k.String = "q" ∨ k.String = "ctrl+c") →
      model.Update tableUpdate m (.Key k) = (m, .Quit)) ∧
    (¬ (k.String = "q" ∨ k.String = "ctrl+c") →
      (model.Update tableUpdate m (.Key k)).2 = .nil) := by
  by_cases hk : k.String = "q" ∨ k.String = "ctrl+c"
  · simp [model.Update, hk]
  · simp [model.Update, hk]

theorem update_quit_iff_witness :
    model.Update table.Update sampleModel (.Key ⟨"q"⟩) = (sampleModel, .Quit) ∧
    model.Update table.Update sampleModel (.Key ⟨"ctrl+c"⟩) = (sampleModel, .Quit) ∧
    (model.Update table.Update sampleModel (.Key ⟨"x"⟩)).2 = .nil :=
  ⟨(update_quit_iff table.Update sampleModel ⟨"q"⟩).2.1 (by decide),
   (update_quit_iff table.Update sampleModel ⟨"ctrl+c"⟩).2.1 (by decide),
   (update_quit_iff table.Update sampleModel ⟨"x"⟩).2.2 (by decide)⟩

/-! ## The claim about the table -/

theorem foldl_rows (dependencies : List Dependency) (rows : List table.Row) :
    dependencies.foldl (fun rows dep => rows ++ [rowOf dep]) rows =
      rows ++ dependencies.map rowOf := by
  induction dependencies generalizing rows with
  | nil => simp
  | cons d rest ih => simp [List.foldl_cons, ih]

theorem buildRows_eq (dependencies : List Dependency) :
    buildRows dependencies = dependencies.map rowOf := by
  simp [buildRows, foldl_rows]

/-- C10, as the code has it: for every record list `getDependencies`
returns, the empty one included, `main` starts the session on a table with
exactly the four columns Name, Current Version, Updated Version, Type, whose
rows are the records in order: row i is the name, current version, latest
version and type of record i, the type being `Dev` when `IsDev` is true and
`Produção` otherwise; the row count equals the record count. The record count
is what `main` hands to `WithHeight`, and the header takes one line of it: the
height of the table is the record count less one, not the record count. -/
theorem main_table (env : Env) (run : model → Option String) (w w1 : World)
    (dependencies : List Dependency)
    (hdeps : getDependencies env w = (.ok dependencies, w1)) :
    ∃ m, (main env run w).session = some m ∧
      m.table.cols.map (fun c => c.Title) =
        ["Name", "Current Version", "Updated Version", "Type"] ∧
      m.table.rows = dependencies.map (fun dep =>
        [dep.Name, dep.CurrentVersion, dep.LatestVersion,
          if dep.IsDev = true then "Dev" else "Produção"]) ∧
      m.table.rows.length = dependencies.length ∧
      m.table.height = (dependencies.length : Int) - 1 ∧
      m.table.height ≠ (dependencies.length : Int) := by
  have hrows : (buildTable dependencies).rows = dependencies.map rowOf := by
    simp [buildTable, table.New, table.WithColumns, table.WithRows, table.WithFocused,
      table.WithHeight, table.Model.SetStyles, buildRows_eq]
  have hheight : (buildTable dependencies).height = (dependencies.length : Int) - 1 := by
    simp [buildTable, table.New, table.WithColumns, table.WithRows, table.WithFocused,
      table.WithHeight, table.Model.SetStyles, table.Model.headerHeight,
      table.DefaultStyles]
  refine ⟨⟨buildTable dependencies⟩, ?_, ?_, ?_, ?_, hheight, ?_⟩
  · cases h : run ⟨buildTable dependencies⟩ <;> simp [main, hdeps, h]
  · rfl
  · rw [hrows]; rfl
  · rw [hrows, List.length_map]
  · show (buildTable dependencies).height ≠ _
    rw [hheight]
    omega

theorem main_table_witness :
    (∃ m, (main (sampleEnv sampleLookup) (fun _ => none) World.start).session = some m ∧
      m.table.rows =
        [["react", "18.2.0", "9.9.9", "Produção"], ["jest", "29.0.0", "9.9.9", "Dev"]] ∧
      m.table.rows.length = 2 ∧
      m.table.height = 1) ∧
    (∃ m, (main { sampleEnv sampleLookup with Unmarshal := fun _ => .ok ⟨[], []⟩ }
        (fun _ => none) World.start).session = some m ∧
      m.table.rows = [] ∧ m.table.height = -1) := by
  constructor
  · obtain ⟨m, h1, _, h3, h4, h5, _⟩ := main_table (sampleEnv sampleLookup) (fun _ => none)
      World.start _ _ (getDependencies_eq _ _ "..." samplePkg rfl rfl)
    refine ⟨m, h1, ?_, ?_, ?_⟩
    · rw [h3]; decide
    · rw [h4]; decide
    · rw [h5]; decide
  · obtain ⟨m, h1, _, h3, _, h5, _⟩ := main_table
      { sampleEnv sampleLookup with Unmarshal := fun _ => .ok ⟨[], []⟩ } (fun _ => none)
      World.start _ _ (getDependencies_eq _ _ "..." ⟨[], []⟩ rfl rfl)
    refine ⟨m, h1, ?_, ?_⟩
    · rw [h3]; decide
    · rw [h5]; decide

/-! ## The claim about the registry client -/

namespace json

theorem lastOr_nil (d : String) : lastOr [] d = d := rfl

theorem lastOr_cons (x : String) (l : List String) (d : String) :
    lastOr (x :: l) d = lastOr l x := by
  simp [lastOr, List.getLast?_cons]

theorem lastOr_append (a b : List String) (d : String) :
    lastOr (a ++ b) d = lastOr b (lastOr a d) := by
  induction a generalizing d with
  | nil => rfl
  | cons x a ih => simp [lastOr_cons, ih]

theorem saveError_ne_none (saved : Option String) (err : String) :
    saveError saved err ≠ none := by
  cases saved <;> simp [saveError]

theorem decodeLatest_saved (v : JSON) (cur : String) (saved : Option String) :
    (decodeLatest v cur saved).2 = none ↔ saved = none ∧ fitsLatest v = true := by
  cases v <;> simp [decodeLatest, fitsLatest, saveError_ne_none]

theorem foldl_latest_value (members : List (String × JSON)) (acc : DistTags × Option String) :
    (members.foldl
      (fun (acc : DistTags × Option String) (kv : String × JSON) =>
        if matchesField kv.1 "latest" then
          let r := decodeLatest kv.2 acc.1.Latest acc.2
          ({ Latest := r.1 }, r.2)
        else acc) acc).1.Latest =
      lastOr (members.filterMap latestOfMember) acc.1.Latest := by
  induction members generalizing acc with
  | nil => rfl
  | cons kv rest ih =>
    obtain ⟨key, v⟩ := kv
    rw [List.foldl_cons, ih, List.filterMap_cons]
    by_cases hm : matchesField key "latest" = true
    · cases v <;> simp [latestOfMember, hm, decodeLatest, lastOr_cons]
    · simp [latestOfMember, hm]

theorem foldl_latest_saved (members : List (String × JSON)) (acc : DistTags × Option String) :
    (members.foldl
      (fun (acc : DistTags × Option String) (kv : String × JSON) =>
        if matchesField kv.1 "latest" then
          let r := decodeLatest kv.2 acc.1.Latest acc.2
          ({ Latest := r.1 }, r.2)
        else acc) acc).2 = none ↔
      acc.2 = none ∧
        members.all (fun kv => !matchesField kv.1 "latest" || fitsLatest kv.2) = true := by
  induction members generalizing acc with
  | nil => simp
  | cons kv rest ih =>
    obtain ⟨key, v⟩ := kv
    rw [List.foldl_cons, ih, List.all_cons]
    by_cases hm : matchesField key "latest" = true
    · simp only [hm, if_true, decodeLatest_saved, Bool.not_true, Bool.false_or,
        Bool.and_eq_true]
      tauto
    · simp [hm]

theorem decodeDistTags_value (v : JSON) (cur : DistTags) (saved : Option String) :
    (decodeDistTags v cur saved).1.Latest = lastOr (latestIn v) cur.Latest := by
  cases v with
  | obj members => exact foldl_latest_value members (cur, saved)
  | _ => rfl

theorem decodeDistTags_saved (v : JSON) (cur : DistTags) (saved : Option String) :
    (decodeDistTags v cur saved).2 = none ↔ saved = none ∧ fitsDistTags v = true := by
  cases v with
  | obj members => exact foldl_latest_saved members (cur, saved)
  | _ => simp [decodeDistTags, fitsDistTags, saveError_ne_none]

theorem foldl_distTags_value (members : List (String × JSON))
    (acc : NPMPackageInfo × Option String) :
    (members.foldl
      (fun (acc : NPMPackageInfo × Option String) (kv : String × JSON) =>
        if matchesField kv.1 "dist-tags" then
          let r := decodeDistTags kv.2 acc.1.DistTags acc.2
          ({ DistTags := r.1 }, r.2)
        else acc) acc).1.DistTags.Latest =
      lastOr
        (members.flatMap (fun kv => if matchesField kv.1 "dist-tags" then latestIn kv.2 else []))
        acc.1.DistTags.Latest := by
  induction members generalizing acc with
  | nil => rfl
  | cons kv rest ih =>
    obtain ⟨key, v⟩ := kv
    rw [List.foldl_cons, ih, List.flatMap_cons, lastOr_append]
    by_cases hm : matchesField key "dist-tags" = true
    · simp [hm, decodeDistTags_value]
    · simp [hm, lastOr_nil]

theorem foldl_distTags_saved (members : List (String × JSON))
    (acc : NPMPackageInfo × Option String) :
    (members.foldl
      (fun (acc : NPMPackageInfo × Option String) (kv : String × JSON) =>
        if matchesField kv.1 "dist-tags" then
          let r := decodeDistTags kv.2 acc.1.DistTags acc.2
          ({ DistTags := r.1 }, r.2)
        else acc) acc).2 = none ↔
      acc.2 = none ∧
        members.all (fun kv => !matchesField kv.1 "dist-tags" || fitsDistTags kv.2) = true := by
  induction members generalizing acc with
  | nil => simp
  | cons kv rest ih =>
    obtain ⟨key, v⟩ := kv
    rw [List.foldl_cons, ih, List.all_cons]
    by_cases hm : matchesField key "dist-tags" = true
    · simp only [hm, if_true, decodeDistTags_saved, Bool.not_true, Bool.false_or,
        Bool.and_eq_true]
      tauto
    · simp [hm]

theorem decodeNPMPackageInfo_value (v : JSON) (cur : NPMPackageInfo) (saved : Option String) :
    (decodeNPMPackageInfo v cur saved).1.DistTags.Latest =
      lastOr (latestTags v) cur.DistTags.Latest := by
  cases v with
  | obj members => exact foldl_distTags_value members (cur, saved)
  | _ => rfl

theorem decodeNPMPackageInfo_saved (v : JSON) (cur : NPMPackageInfo) (saved : Option String) :
    (decodeNPMPackageInfo v cur saved).2 = none ↔
      saved = none ∧ fitsNPMPackageInfo v = true := by
  cases v with
  | obj members => exact foldl_distTags_saved members (cur, saved)
  | _ => simp [decodeNPMPackageInfo, fitsNPMPackageInfo, saveError_ne_none]

theorem Unmarshal_of_fits (v : JSON) (h : fitsNPMPackageInfo v = true) :
    ∃ npmInfo, Unmarshal v = .ok npmInfo ∧ npmInfo.DistTags.Latest = lastOr (latestTags v) "" := by
  have hs := (decodeNPMPackageInfo_saved v { DistTags := { Latest := "" } } none).mpr ⟨rfl, h⟩
  have hv := decodeNPMPackageInfo_value v { DistTags := { Latest := "" } } none
  unfold Unmarshal
  generalize decodeNPMPackageInfo v { DistTags := { Latest := "" } } none = r at hs hv
  obtain ⟨info, saved⟩ := r
  simp only at hs hv
  subst hs
  exact ⟨info, rfl, hv⟩

theorem Unmarshal_of_not_fits (v : JSON) (h : fitsNPMPackageInfo v = false) :
    ∃ err, Unmarshal v = .error err := by
  have hs := (decodeNPMPackageInfo_saved v { DistTags := { Latest := "" } } none).not
  unfold Unmarshal
  generalize decodeNPMPackageInfo v { DistTags := { Latest := "" } } none = r at hs
  obtain ⟨info, saved⟩ := r
  cases saved with
  | none => simp [h] at hs
  | some err => exact ⟨err, rfl⟩

end json

/-- C9, as the code has it: on a well-formed body that fits `NPMPackageInfo`
(it is `null`, or an object whose `dist-tags` members are `null` or objects
whose `latest` members are `null` or strings), `getLatestVersion` returns
without error the string at `dist-tags.latest` (the last one stored, should
the document repeat the member), and the empty string when the response holds
no such string; on a well-formed body that does not fit it returns an error,
as it does on a transport failure, a failed read and a malformed body. -/
theorem getLatestVersion_result (registry : Registry) (packageName : String) :
    (∀ v, registry (registryURL packageName) = .body v →
      json.fitsNPMPackageInfo v = true →
      getLatestVersion registry packageName = .ok (json.lastOr (json.latestTags v) "")) ∧
    (∀ s, registry (registryURL packageName) =
        .body (.obj [("dist-tags", .obj [("latest", .str s)])]) →
      getLatestVersion registry packageName = .ok s) ∧
    (∀ v, registry (registryURL packageName) = .body v →
      json.fitsNPMPackageInfo v = true → json.latestTags v = [] →
      getLatestVersion registry packageName = .ok "") ∧
    (∀ v, registry (registryURL packageName) = .body v →
      json.fitsNPMPackageInfo v = false →
      ∃ err, getLatestVersion registry packageName = .error err) ∧
    (∀ err, registry (registryURL packageName) = .transportError err ∨
        registry (registryURL packageName) = .readError err ∨
        registry (registryURL packageName) = .malformed err →
      getLatestVersion registry packageName = .error err) := by
  have hfit : ∀ v, registry (registryURL packageName) = .body v →
      json.fitsNPMPackageInfo v = true →
      getLatestVersion registry packageName =
        .ok (json.lastOr (json.latestTags v) "") := by
    intro v hv hf
    obtain ⟨npmInfo, h1, h2⟩ := json.Unmarshal_of_fits v hf
    unfold registryURL at hv
    simp [getLatestVersion, hv, h1, h2]
  refine ⟨hfit, ?_, ?_, ?_, ?_⟩
  · intro s hs
    rw [hfit _ hs rfl]
    rfl
  · intro v hv hf hnone
    rw [hfit v hv hf, hnone]
    rfl
  · intro v hv hf
    obtain ⟨err, h1⟩ := json.Unmarshal_of_not_fits v hf
    unfold registryURL at hv
    exact ⟨err, by simp [getLatestVersion, hv, h1]⟩
  · intro err h
    unfold registryURL at h
    rcases h with h | h | h <;> simp [getLatestVersion, h]

theorem getLatestVersion_result_witness :
    getLatestVersion sampleRegistry "react" = .ok "18.2.0" ∧
    getLatestVersion sampleRegistry "empty" = .ok "" ∧
    getLatestVersion sampleRegistry "untagged" = .ok "" ∧
    (∃ err, getLatestVersion sampleRegistry "list" = .error err) ∧
    getLatestVersion sampleRegistry "offline" = .error "dial tcp: i/o timeout" := by
  have hreact := (getLatestVersion_result sampleRegistry "react").1 _ rfl (by decide)
  have hempty := (getLatestVersion_result sampleRegistry "empty").2.2.1 _ rfl (by decide)
    (by decide)
  have huntagged := (getLatestVersion_result sampleRegistry "untagged").2.2.1 _ rfl
    (by decide) (by decide)
  have hlist := (getLatestVersion_result sampleRegistry "list").2.2.2.1 _ rfl (by decide)
  have hoff := (getLatestVersion_result sampleRegistry "offline").2.2.2.2
    "dial tcp: i/o timeout" (Or.inl rfl)
  exact ⟨hreact, hempty, huntagged, hlist, hoff⟩

/-- C9, as the claim has it, fails: a well-formed body that is an array, and
one whose `latest` is a number, both make `getLatestVersion` return an error. -/
theorem getLatestVersion_wellformed_error :
    (∃ err, getLatestVersion (fun _ => .body (.arr [])) "react" = .error err) ∧
    (∃ err, getLatestVersion
      (fun _ => .body (.obj [("dist-tags", .obj [("latest", .num "5")])])) "react" =
        .error err) :=
  ⟨⟨_, rfl⟩, ⟨_, rfl⟩⟩

end UpdateCheck
